import Mathlib

/-!
Verification of the session-scoped RAG backend.

The development shallowly embeds the backend's core components:
the filesystem-backed session registry (`SessionManager` in
`backend/main.py`), the sweep pass (`cleanup_old_sessions`), the upload
pipeline (`upload_file` / `FileManager.process_pdf`), the FAISS flat-L2
vector search wrappers (`rag/faiss_store.py`, `ragai/rag/faiss_store.py`),
the persist/load artifact pair, the token chunker
(`ragai/rag/chunker.py`), and the batch embedder with per-item fallback
(`rag/embedder.py`).

Machine conventions: timestamps are naturals (seconds); the on-disk
session tree is a list of session directories; fallible I/O and external
library calls are modelled with `Except`/`Option` or Boolean outcome
parameters; Python `try/except` blocks become explicit catch wrappers.
-/

/-! ## Session registry (`SessionManager`, backend/main.py) -/

/-- Idle threshold: 1 hour, in seconds (`timedelta(hours=1)`). -/
def SESSION_TIMEOUT : Nat := 3600

/-- Contents of a parseable `session.json`: `created_at` and `last_access`
ISO timestamps, modelled as naturals. -/
structure SessionMeta where
  created_at : Nat
  last_access : Nat
deriving DecidableEq, Repr

/-- State of a session directory's `session.json` file: absent, present but
unreadable/unparseable (`json.load` raises), or readable. -/
inductive MetaFile where
  | missing : MetaFile
  | corrupt : MetaFile
  | ok : SessionMeta → MetaFile
deriving DecidableEq, Repr

/-- One session directory under `temp/`: its name (the session id), its
`session.json` state, and the ids of documents whose artifacts
(index + chunks) have been persisted inside it. -/
structure SessionDir where
  name : String
  meta : MetaFile
  docs : List String
deriving DecidableEq, Repr

/-- The session store: the directories under `temp/` in iteration order,
plus the current wall-clock time (`datetime.now()`). -/
structure Store where
  dirs : List SessionDir
  now : Nat
deriving DecidableEq, Repr

/-- Find the directory of a session id, if it exists on disk. -/
def Store.find? (s : Store) (sid : String) : Option SessionDir :=
  s.dirs.find? (fun d => d.name == sid)

/-- `SessionManager.cleanup_session`: `shutil.rmtree` of the session
directory if it exists; a no-op otherwise (idempotent). -/
def cleanup_session (s : Store) (sid : String) : Store :=
  { s with dirs := s.dirs.filter (fun d => d.name != sid) }

/-- `SessionManager.create_session` (with the fresh uuid passed in):
creates the directory tree and writes `session.json` with both timestamps
stamped to now. -/
def create_session (s : Store) (freshId : String) : Store :=
  { s with dirs := s.dirs ++ [⟨freshId, .ok ⟨s.now, s.now⟩, []⟩] }

/-- Body of `SessionManager.is_session_valid`, before its `except` clause:
empty id → False; missing directory or missing `session.json` → False;
corrupt `session.json` → `json.load` raises (the `Except.error` case);
expired (idle strictly longer than the threshold) → delete the directory
and return False; otherwise True. -/
def is_session_valid_body (s : Store) (sid : String) : Except String (Bool × Store) :=
  if sid = "" then .ok (false, s)
  else
    match s.find? sid with
    | none => .ok (false, s)
    | some d =>
      match d.meta with
      | .missing => .ok (false, s)
      | .corrupt => .error "json decode error"
      | .ok m =>
        if SESSION_TIMEOUT < s.now - m.last_access then
          .ok (false, cleanup_session s sid)
        else
          .ok (true, s)

/-- `SessionManager.is_session_valid`: the body wrapped in
`try/except`, every exception becoming a False verdict with no state
change. -/
def is_session_valid (s : Store) (sid : String) : Bool × Store :=
  match is_session_valid_body s sid with
  | .ok r => r
  | .error _ => (false, s)

/-- Rewrite `session.json` of `sid` with `last_access` set to now
(the successful path of `update_session_access`). -/
def touchAccess (s : Store) (sid : String) : Store :=
  { s with
    dirs := s.dirs.map (fun d =>
      if d.name == sid then
        match d.meta with
        | .ok m => { d with meta := .ok { m with last_access := s.now } }
        | _ => d
      else d) }

/-- `SessionManager.update_session_access`: False if `session.json` is
absent; False (via its own `except`) if it is unreadable; otherwise
rewrites it with `last_access := now` and returns True. -/
def update_session_access (s : Store) (sid : String) : Bool × Store :=
  match s.find? sid with
  | none => (false, s)
  | some d =>
    match d.meta with
    | .missing => (false, s)
    | .corrupt => (false, s)
    | .ok _ => (true, touchAccess s sid)

/-- The validation step of `query_document` (backend/main.py:258-262):
`is_session_valid` followed, on success, by `update_session_access`,
before the handler resumes. -/
def validate_and_touch (s : Store) (sid : String) : Bool × Store :=
  let r := is_session_valid s sid
  if r.1 then (true, (update_session_access r.2 sid).2) else (false, r.2)

/-! ## Sweep pass (`SessionManager.cleanup_old_sessions`) -/

/-- One sweep pass over the directory list, in iteration order.  The
Python `try` encloses the whole `for` loop, so an unreadable
`session.json` aborts the pass: the offending directory and all the
directories after it are left untouched.  A directory with no
`session.json` is removed; a readable one is removed exactly when idle
strictly longer than the threshold. -/
def sweepList (now : Nat) : List SessionDir → List SessionDir
  | [] => []
  | d :: rest =>
    match d.meta with
    | .missing => sweepList now rest
    | .corrupt => d :: rest
    | .ok m =>
      if SESSION_TIMEOUT < now - m.last_access then sweepList now rest
      else d :: sweepList now rest

/-- `SessionManager.cleanup_old_sessions` applied to the store. -/
def cleanup_old_sessions (s : Store) : Store :=
  { s with dirs := sweepList s.now s.dirs }

/-! ## Upload pipeline (`upload_file` + `FileManager.process_pdf`) -/

/-- Outcome of the upload endpoint: the JSON success payload's ids, or an
HTTP 500 with a detail message. -/
inductive UploadResult where
  | success : String → String → UploadResult
  | httpError : String → UploadResult
deriving DecidableEq, Repr

/-- Environment of one upload: whether each pipeline stage succeeds
(text extraction, chunking, embedding, index write, chunks write). -/
structure PipelineEnv where
  extract_ok : Bool
  chunk_ok : Bool
  embed_ok : Bool
  store_ok : Bool
  save_ok : Bool
deriving DecidableEq, Repr

/-- `FileManager.process_pdf` distilled to its failure behaviour: the
first failing stage raises with its message; `none` means every stage
succeeded. -/
def process_pdf_failure (env : PipelineEnv) : Option String :=
  if !env.extract_ok then some "Failed to extract text from PDF"
  else if !env.chunk_ok then some "Failed to create text chunks"
  else if !env.embed_ok then some "Failed to generate embeddings"
  else if !env.store_ok then some "Error storing embeddings"
  else if !env.save_ok then some "Error saving chunks"
  else none

/-- Record document `fid` as persisted inside session `sid`. -/
def addDoc (s : Store) (sid fid : String) : Store :=
  { s with
    dirs := s.dirs.map (fun d =>
      if d.name == sid then { d with docs := d.docs ++ [fid] } else d) }

/-- The `upload_file` endpoint (backend/main.py:207-247).  Session
selection: with no id (or a falsy one) a fresh session is created; with a
valid id the session is reused and touched; with an invalid or expired id
(expiry deletes the old directory) a fresh session is created.  Then the
pdf is processed; on any stage failure the handler's `except` block runs
`cleanup_session(session_id)` on whichever session is in scope — fresh or
reused — and answers HTTP 500. -/
def upload_file (s : Store) (provided : Option String) (freshId fileId : String)
    (env : PipelineEnv) : UploadResult × Store :=
  let sel : String × Store :=
    match provided with
    | none => (freshId, create_session s freshId)
    | some p =>
      if p = "" then (freshId, create_session s freshId)
      else
        let v := is_session_valid s p
        if v.1 then (p, (update_session_access v.2 p).2)
        else (freshId, create_session v.2 freshId)
  match process_pdf_failure env with
  | some msg => (.httpError msg, cleanup_session sel.2 sel.1)
  | none => (.success sel.1 fileId, addDoc sel.2 sel.1 fileId)

/-! ## FAISS flat-L2 search (`faiss_store.py`) -/

/-- Squared Euclidean distance between two vectors, the metric of
`IndexFlatL2` (which returns squared distances). -/
def distSq (u v : List Int) : Int :=
  ((List.zip u v).map (fun p => (p.1 - p.2) ^ 2)).sum

/-- The order in which flat search ranks candidates: strictly smaller
squared distance first, ties broken by lower row index. -/
def lexLe (a b : Int × Nat) : Prop :=
  a.1 < b.1 ∨ (a.1 = b.1 ∧ a.2 ≤ b.2)

instance : DecidableRel lexLe := fun _ _ =>
  inferInstanceAs (Decidable (_ ∨ _))

instance : IsTotal (Int × Nat) lexLe where
  total a b := by
    rcases lt_trichotomy a.1 b.1 with h | h | h
    · exact Or.inl (Or.inl h)
    · rcases Nat.le_total a.2 b.2 with h2 | h2
      · exact Or.inl (Or.inr ⟨h, h2⟩)
      · exact Or.inr (Or.inr ⟨h.symm, h2⟩)
    · exact Or.inr (Or.inl h)

instance : IsTrans (Int × Nat) lexLe where
  trans a b c hab hbc := by
    rcases hab with h1 | ⟨e1, l1⟩
    · rcases hbc with h2 | ⟨e2, _⟩
      · exact Or.inl (h1.trans h2)
      · exact Or.inl (e2 ▸ h1)
    · rcases hbc with h2 | ⟨e2, l2⟩
      · exact Or.inl (e1 ▸ h2)
      · exact Or.inr ⟨e1.trans e2, l1.trans l2⟩

/-- Each row of the index paired with its search key
(squared distance to the query, row number). -/
def keyedRows (index : List (List Int)) (q : List Int) : List (Int × Nat) :=
  index.enum.map (fun p => (distSq p.2 q, p.1))

/-- The genuine neighbour labels: row numbers of the (at most) `k`
nearest rows, nearest first. -/
def searchIdx (index : List (List Int)) (q : List Int) (k : Nat) : List Nat :=
  (((keyedRows index q).insertionSort lexLe).take k).map (fun p => p.2)

/-- `search(index, query_vector, k)` (`faiss_store.py`): `index.search`
returns a fixed `k`-column label row — the nearest labels, padded with
the sentinel `-1` when the index holds fewer than `k` vectors — and the
wrapper returns `I[0]` unfiltered. -/
def search (index : List (List Int)) (q : List Int) (k : Nat) : List Int :=
  (searchIdx index q k).map (fun i => Int.ofNat i)
    ++ List.replicate (k - min k index.length) (-1)

/-! ## Artifact persist/load (`faiss_store.py`) -/

/-- Content of one on-disk artifact: a written flat index (its rows), or
a chunks JSON array. -/
inductive FileContent where
  | idxData : List (List Int) → FileContent
  | jsonData : List String → FileContent
deriving DecidableEq, Repr

/-- A flat filesystem: paths mapped to artifact contents. -/
abbrev FS := List (String × FileContent)

/-- Write (create or overwrite) one file. -/
def fsWrite (fs : FS) (path : String) (c : FileContent) : FS :=
  (fs.filter (fun p => p.1 != path)) ++ [(path, c)]

/-- Read one file, if present. -/
def fsRead (fs : FS) (path : String) : Option FileContent :=
  (fs.find? (fun p => p.1 == path)).map (fun p => p.2)

/-- `store_embeddings`: build an `IndexFlatL2` over the embedding rows
and write it to `path`; `ok = false` models a faiss/I/O failure, after
which nothing lands on disk and the call reports failure. -/
def store_embeddings (ok : Bool) (embeddings : List (List Int)) (path : String)
    (fs : FS) : Bool × FS :=
  if ok then (true, fsWrite fs path (.idxData embeddings)) else (false, fs)

/-- `save_chunks`: `json.dump` the chunk list to `path`. -/
def save_chunks (ok : Bool) (chunks : List String) (path : String) (fs : FS) :
    Bool × FS :=
  if ok then (true, fsWrite fs path (.jsonData chunks)) else (false, fs)

/-- `load_index_and_chunks`: read the index, then the chunks; any failure
in either read makes the whole call fail as a unit (`return None, None`). -/
def load_index_and_chunks (fs : FS) (index_path chunks_path : String) :
    Option (List (List Int) × List String) :=
  match fsRead fs index_path, fsRead fs chunks_path with
  | some (.idxData rows), some (.jsonData cs) => some (rows, cs)
  | _, _ => none

/-- The persist step of the ingestion pipeline (ragai `upload_file`
149-157 / `process_pdf` 185-191): write the index, then the chunk list;
a failed write aborts the step, which then reports failure. -/
def persist_artifacts (storeOk saveOk : Bool) (embeddings : List (List Int))
    (chunks : List String) (index_path chunks_path : String) (fs : FS) : Bool × FS :=
  let r1 := store_embeddings storeOk embeddings index_path fs
  if !r1.1 then (false, r1.2)
  else
    let r2 := save_chunks saveOk chunks chunks_path r1.2
    if !r2.1 then (false, r2.2) else (true, r2.2)

/-! ## Chunker (`ragai/rag/chunker.py`)

A token is represented by its decoded text (a character list); decoding a
token slice is concatenation.  Chunks are kept as token slices, so a
chunk's token count is the slice's length. -/

/-- Python `str.rfind`: the largest index at which `pat` occurs in `s`,
if any. -/
def rfindPat (s pat : List Char) : Option Nat :=
  ((List.range (s.length + 1)).reverse).find? (fun i => pat.isPrefixOf (s.drop i))

/-- Python `str.strip`: drop leading and trailing whitespace. -/
def stripChars (s : List Char) : List Char :=
  ((s.dropWhile Char.isWhitespace).reverse.dropWhile Char.isWhitespace).reverse

/-- The adjusted end of the window starting at `start`: nominally
`start + cs`; when that is not the last chunk, the decoded overlap window
is scanned backward for a sentence end (". ") or else a newline, and the
break offset — a character offset into the decoded string — is added to
the token position `overlap_start` (plus 2), exactly as the source does. -/
def chunkEnd (tokens : List (List Char)) (cs ov start : Nat) : Nat :=
  let e0 := start + cs
  if e0 < tokens.length then
    let os := max start (e0 - ov)
    let decoded := ((tokens.drop os).take (e0 - os)).flatten
    let bp :=
      match rfindPat decoded ['.', ' '] with
      | some b => some b
      | none => rfindPat decoded ['\n']
    match bp with
    | some b => os + b + 2
    | none => e0
  else e0

/-- The next window start: `max(start + chunk_size - overlap, end - overlap)`. -/
def nextStart (cs ov start e : Nat) : Nat :=
  max (start + cs - ov) (e - ov)

/-- The chunking loop, fuelled; `none` means the fuel ran out (the Python
`while` loop would still be running). Each pass slices
`tokens[start:end]`, keeps it when its decoded text strips to something
non-empty, and advances `start`. -/
def chunkLoop (tokens : List (List Char)) (cs ov : Nat) :
    Nat → Nat → List (List (List Char)) → Option (List (List (List Char)))
  | 0, _, _ => none
  | fuel + 1, start, acc =>
    if start < tokens.length then
      let e := chunkEnd tokens cs ov start
      let slice := (tokens.drop start).take (e - start)
      let acc' := if stripChars slice.flatten = [] then acc else acc ++ [slice]
      chunkLoop tokens cs ov fuel (nextStart cs ov start e) acc'
    else some acc

/-- `chunk_text(text, chunk_size, overlap)`: empty input yields `[]`;
otherwise the loop runs from `start = 0` (the fuel suffices whenever
`overlap < chunk_size`). -/
def chunk_text (tokens : List (List Char)) (cs ov : Nat) : List (List (List Char)) :=
  if tokens = [] then []
  else (chunkLoop tokens cs ov (tokens.length + 1) 0 []).getD []

/-! ## Embedding adapter (`rag/embedder.py`) -/

/-- `embed_chunks(chunks)`: `None` on empty input; otherwise the batch
`model.encode` result when the batch call succeeds; on batch failure the
fallback embeds items one by one, keeping the successes in order, and
returns `None` exactly when nothing survives.  `batch` is the outcome of
the batch call (`none` = it raised); `embedF` is `embed_text`. -/
def embed_chunks (batch : Option (List (List Int))) (embedF : String → Option (List Int))
    (chunks : List String) : Option (List (List Int)) :=
  if chunks.isEmpty then none
  else
    match batch with
    | some vs => some vs
    | none =>
      let results := chunks.filterMap embedF
      if results.isEmpty then none else some results

/-! ## Helper lemmas -/

/-- After `rmtree`, the session directory can no longer be found. -/
lemma find?_cleanup_session (s : Store) (sid : String) :
    (cleanup_session s sid).find? sid = none := by
  simp only [cleanup_session, Store.find?, List.find?_eq_none]
  intro d hd
  have := List.of_mem_filter hd
  simpa [bne] using this

/-- The value rewritten by a touch of `sid`. -/
def touchedDir (now : Nat) (d : SessionDir) : SessionDir :=
  match d.meta with
  | .ok m => { d with meta := .ok { m with last_access := now } }
  | _ => d

lemma touchedDir_name (now : Nat) (d : SessionDir) : (touchedDir now d).name = d.name := by
  unfold touchedDir
  match d with
  | ⟨n, .missing, ds⟩ => rfl
  | ⟨n, .corrupt, ds⟩ => rfl
  | ⟨n, .ok m, ds⟩ => rfl

lemma find?_map_touch (now : Nat) (sid : String) (l : List SessionDir) :
    (l.map (fun d => if d.name == sid then touchedDir now d else d)).find?
        (fun d => d.name == sid)
      = (l.find? (fun d => d.name == sid)).map (touchedDir now) := by
  induction l with
  | nil => rfl
  | cons d rest ih =>
    by_cases h : d.name == sid
    · simp only [List.map_cons, List.find?_cons, h, if_pos]
      rw [touchedDir_name, h]
      rfl
    · simp only [List.map_cons, List.find?_cons, h, if_neg, Bool.false_eq_true,
        not_false_eq_true, if_false]
      exact ih

lemma find?_touchAccess (s : Store) (sid : String) :
    (touchAccess s sid).find? sid = (s.find? sid).map (touchedDir s.now) := by
  have h := find?_map_touch s.now sid s.dirs
  simpa [touchAccess, Store.find?, touchedDir] using h

lemma mem_sweepList_of_fresh (now : Nat) (l : List SessionDir) (d : SessionDir)
    (m : SessionMeta) (hmeta : d.meta = .ok m)
    (hfresh : now - m.last_access ≤ SESSION_TIMEOUT) :
    d ∈ l → d ∈ sweepList now l := by
  induction l with
  | nil => intro h; simp at h
  | cons d' rest ih =>
    intro h
    rcases List.mem_cons.mp h with rfl | hmem
    · simp [sweepList, hmeta, Nat.not_lt.mpr hfresh]
    · cases hm' : d'.meta with
      | missing => simpa [sweepList, hm'] using ih hmem
      | corrupt =>
        simp only [sweepList, hm']
        exact List.mem_cons_of_mem _ hmem
      | ok m' =>
        by_cases hexp : SESSION_TIMEOUT < now - m'.last_access
        · simpa [sweepList, hm', hexp] using ih hmem
        · simp only [sweepList, hm', if_neg hexp]
          exact List.mem_cons_of_mem _ (ih hmem)

/-- Which directories a non-aborted sweep keeps. -/
def keepDir (now : Nat) (d : SessionDir) : Bool :=
  match d.meta with
  | .ok m => if SESSION_TIMEOUT < now - m.last_access then false else true
  | _ => false

/-- Whether a directory's metadata is readable (the sweep survives it). -/
def notCorrupt (d : SessionDir) : Bool :=
  match d.meta with
  | .corrupt => false
  | _ => true

lemma find?_filter_ne (p p' : String) (h : p' ≠ p) (l : FS) :
    (l.filter (fun x => x.1 != p)).find? (fun x => x.1 == p')
      = l.find? (fun x => x.1 == p') := by
  induction l with
  | nil => rfl
  | cons a rest ih =>
    by_cases ha : a.1 = p
    · have h1 : (a.1 != p) = false := by simp [ha]
      have h2 : (a.1 == p') = false := by simp [ha]; exact fun e => h e.symm
      simp only [List.filter_cons, h1, List.find?_cons, h2]
      exact ih
    · have h1 : (a.1 != p) = true := by simp [ha]
      simp only [List.filter_cons, h1, List.find?_cons]
      by_cases hq : (a.1 == p') = true
      · simp [hq]
      · simp only [Bool.not_eq_true] at hq
        simp [hq, ih]

lemma fsRead_fsWrite_same (fs : FS) (p : String) (c : FileContent) :
    fsRead (fsWrite fs p c) p = some c := by
  unfold fsRead fsWrite
  induction fs with
  | nil => simp
  | cons a rest ih =>
    by_cases ha : a.1 = p
    · have h1 : (a.1 != p) = false := by simp [ha]
      simp [h1]
    · have h1 : (a.1 != p) = true := by simp [ha]
      have h2 : (a.1 == p) = false := by simp [ha]
      simp [h1, h2, ih]

lemma fsRead_fsWrite_other (fs : FS) (p p' : String) (c : FileContent) (h : p' ≠ p) :
    fsRead (fsWrite fs p c) p' = fsRead fs p' := by
  unfold fsRead fsWrite
  induction fs with
  | nil => simp [show (p == p') = false by simp; exact fun e => h e.symm]
  | cons a rest ih =>
    by_cases ha : a.1 = p
    · have h1 : (a.1 != p) = false := by simp [ha]
      have h2 : (a.1 == p') = false := by simp [ha]; exact fun e => h e.symm
      simpa [h1, h2] using ih
    · have h1 : (a.1 != p) = true := by simp [ha]
      by_cases hq : (a.1 == p') = true
      · simp [h1, hq]
      · simp only [Bool.not_eq_true] at hq
        simpa [h1, hq] using ih

/-! ## Claim theorems: session registry -/

/-- C1: for a known session id with readable metadata and idle time within
the 1-hour threshold, the query handler's validation step answers true and
the session's `last_access` is already refreshed to now when the caller
resumes; for an unknown id it answers false and changes nothing; for an
expired id it answers false and the session directory has been deleted. -/
theorem validate_refresh_delete_spec (s : Store) (sid : String) (hsid : sid ≠ "") :
    (s.find? sid = none → validate_and_touch s sid = (false, s)) ∧
    (∀ d m, s.find? sid = some d → d.meta = .ok m →
      s.now - m.last_access ≤ SESSION_TIMEOUT →
      validate_and_touch s sid = (true, touchAccess s sid) ∧
      (touchAccess s sid).find? sid
        = some { d with meta := .ok { m with last_access := s.now } }) ∧
    (∀ d m, s.find? sid = some d → d.meta = .ok m →
      SESSION_TIMEOUT < s.now - m.last_access →
      validate_and_touch s sid = (false, cleanup_session s sid) ∧
      (cleanup_session s sid).find? sid = none) := by
  refine ⟨?_, ?_, ?_⟩
  · intro hnone
    simp [validate_and_touch, is_session_valid, is_session_valid_body, hsid, hnone]
  · intro d m hd hm hfresh
    have hvalid : is_session_valid s sid = (true, s) := by
      simp [is_session_valid, is_session_valid_body, hsid, hd, hm, Nat.not_lt.mpr hfresh]
    refine ⟨?_, ?_⟩
    · simp [validate_and_touch, hvalid, update_session_access, hd, hm]
    · rw [find?_touchAccess, hd]
      simp [touchedDir, hm]
  · intro d m hd hm hexp
    have hvalid : is_session_valid s sid = (false, cleanup_session s sid) := by
      simp [is_session_valid, is_session_valid_body, hsid, hd, hm, hexp]
    exact ⟨by simp [validate_and_touch, hvalid], find?_cleanup_session s sid⟩

/-- Witness for `validate_refresh_delete_spec` at a concrete store: a
session touched 100 s ago validates and is refreshed. -/
theorem validate_refresh_delete_spec_witness :
    ("s1" : String) ≠ "" ∧
    validate_and_touch ⟨[⟨"s1", .ok ⟨0, 100⟩, []⟩], 200⟩ "s1"
      = (true, touchAccess ⟨[⟨"s1", .ok ⟨0, 100⟩, []⟩], 200⟩ "s1") :=
  ⟨by decide,
    ((validate_refresh_delete_spec ⟨[⟨"s1", .ok ⟨0, 100⟩, []⟩], 200⟩ "s1"
        (by decide)).2.1 ⟨"s1", .ok ⟨0, 100⟩, []⟩ ⟨0, 100⟩ (by decide) rfl (by decide)).1⟩

/-- C10: `is_session_valid` is total at the public interface: the empty id
yields false; an id with no directory or no `session.json` yields false;
an unreadable `session.json` yields false; and whenever the body raises,
the `except` clause converts the exception into a plain false verdict. -/
theorem is_session_valid_total_spec (s : Store) (sid : String) :
    (is_session_valid s "" = (false, s)) ∧
    (s.find? sid = none → is_session_valid s sid = (false, s)) ∧
    (∀ d, s.find? sid = some d → d.meta = .corrupt →
      is_session_valid s sid = (false, s)) ∧
    (∀ e, is_session_valid_body s sid = .error e → is_session_valid s sid = (false, s)) := by
  refine ⟨?_, ?_, ?_, ?_⟩
  · simp [is_session_valid, is_session_valid_body]
  · intro h
    by_cases hsid : sid = ""
    · simp [is_session_valid, is_session_valid_body, hsid]
    · simp [is_session_valid, is_session_valid_body, hsid, h]
  · intro d hd hm
    by_cases hsid : sid = ""
    · simp [is_session_valid, is_session_valid_body, hsid]
    · simp [is_session_valid, is_session_valid_body, hsid, hd, hm]
  · intro e he
    simp [is_session_valid, he]

/-- Witness for `is_session_valid_total_spec`: a corrupt `session.json`
yields false without an exception escaping. -/
theorem is_session_valid_total_spec_witness :
    is_session_valid ⟨[⟨"c", .corrupt, []⟩], 0⟩ "c" = (false, ⟨[⟨"c", .corrupt, []⟩], 0⟩) :=
  (is_session_valid_total_spec ⟨[⟨"c", .corrupt, []⟩], 0⟩ "c").2.2.1
    ⟨"c", .corrupt, []⟩ (by decide) rfl

/-- C5 counterexample: with a corrupt-metadata directory listed first and
an expired session (idle 10000 s > 3600 s) listed after it, the sweep
pass deletes nothing: the expired session survives, refuting the claim
that one bad session does not prevent the sweep from processing the rest. -/
theorem sweep_corrupt_aborts_counterexample :
    sweepList 10000 [⟨"a", .corrupt, []⟩, ⟨"b", .ok ⟨0, 0⟩, []⟩]
      = [⟨"a", .corrupt, []⟩, ⟨"b", .ok ⟨0, 0⟩, []⟩] ∧
    SESSION_TIMEOUT < 10000 - 0 ∧
    (⟨"b", .ok ⟨0, 0⟩, []⟩ : SessionDir) ∈
      sweepList 10000 [⟨"a", .corrupt, []⟩, ⟨"b", .ok ⟨0, 0⟩, []⟩] := by
  refine ⟨rfl, by decide, ?_⟩
  simp [sweepList]

/-- C5 amended: one sweep pass deletes exactly the sessions with missing
metadata and the expired sessions that occur before the first
corrupt-metadata directory; at the first corrupt metadata file the pass
aborts, leaving that directory and every later one untouched.  A session
whose last-access is within the threshold is never deleted. -/
theorem sweep_spec (now : Nat) (l : List SessionDir) :
    (sweepList now l
      = (l.takeWhile notCorrupt).filter (keepDir now) ++ l.dropWhile notCorrupt) ∧
    (∀ d m, d ∈ l → d.meta = .ok m → now - m.last_access ≤ SESSION_TIMEOUT →
      d ∈ sweepList now l) := by
  constructor
  · induction l with
    | nil => rfl
    | cons d rest ih =>
      cases hmeta : d.meta with
      | missing =>
        simp [sweepList, hmeta, List.takeWhile_cons, List.dropWhile_cons,
          notCorrupt, keepDir, ih]
      | corrupt =>
        simp [sweepList, hmeta, List.takeWhile_cons, List.dropWhile_cons, notCorrupt]
      | ok m =>
        by_cases hexp : SESSION_TIMEOUT < now - m.last_access
        · simp [sweepList, hmeta, hexp, List.takeWhile_cons, List.dropWhile_cons,
            notCorrupt, keepDir, ih]
        · simp [sweepList, hmeta, hexp, List.takeWhile_cons, List.dropWhile_cons,
            notCorrupt, keepDir, ih]
  · intro d m hmem hmeta hfresh
    exact mem_sweepList_of_fresh now l d m hmeta hfresh hmem

/-- Witness for `sweep_spec`: a within-threshold session survives a sweep. -/
theorem sweep_spec_witness :
    (⟨"f", .ok ⟨0, 100⟩, []⟩ : SessionDir) ∈ sweepList 200 [⟨"f", .ok ⟨0, 100⟩, []⟩] :=
  (sweep_spec 200 [⟨"f", .ok ⟨0, 100⟩, []⟩]).2 ⟨"f", .ok ⟨0, 100⟩, []⟩ ⟨0, 100⟩
    (by decide) rfl (by decide)

/-- C4 counterexample: an upload that reuses a valid pre-existing session
(holding document "d0") and then fails at text extraction deletes that
session: after the failure its directory — previously ingested documents
included — is gone, refuting the claim that a pre-existing session is
left untouched. -/
theorem upload_cleanup_counterexample :
    (is_session_valid ⟨[⟨"s", .ok ⟨0, 1000⟩, ["d0"]⟩], 1000⟩ "s").1 = true ∧
    (upload_file ⟨[⟨"s", .ok ⟨0, 1000⟩, ["d0"]⟩], 1000⟩ (some "s") "f" "d1"
        ⟨false, true, true, true, true⟩).1
      = .httpError "Failed to extract text from PDF" ∧
    ((upload_file ⟨[⟨"s", .ok ⟨0, 1000⟩, ["d0"]⟩], 1000⟩ (some "s") "f" "d1"
        ⟨false, true, true, true, true⟩).2).find? "s" = none := by
  refine ⟨by decide, by decide, by decide⟩

/-- C4 amended: on any pipeline-stage failure the upload handler aborts
with that stage's descriptive failure and deletes whichever session was
in scope — the freshly created one when none (or an invalid id) was
supplied, but equally a reused pre-existing valid session, whose prior
documents are lost with it. -/
theorem upload_failure_deletes_session_spec (s : Store) (p fresh did msg : String)
    (env : PipelineEnv) (hfail : process_pdf_failure env = some msg) :
    ((upload_file s none fresh did env).1 = .httpError msg ∧
      ((upload_file s none fresh did env).2).find? fresh = none) ∧
    (∀ d m, p ≠ "" → s.find? p = some d → d.meta = .ok m →
      s.now - m.last_access ≤ SESSION_TIMEOUT →
      (upload_file s (some p) fresh did env).1 = .httpError msg ∧
      ((upload_file s (some p) fresh did env).2).find? p = none) := by
  constructor
  · exact ⟨by simp [upload_file, hfail], by simp [upload_file, hfail, find?_cleanup_session]⟩
  · intro d m hp hd hm hfresh
    have hvalid : is_session_valid s p = (true, s) := by
      simp [is_session_valid, is_session_valid_body, hp, hd, hm, Nat.not_lt.mpr hfresh]
    exact ⟨by simp [upload_file, hfail, hp, hvalid],
      by simp [upload_file, hfail, hp, hvalid, find?_cleanup_session]⟩

/-- Witness for `upload_failure_deletes_session_spec`: the concrete
pre-existing session "s" is gone after a failed upload. -/
theorem upload_failure_deletes_session_spec_witness :
    ((upload_file ⟨[⟨"s", .ok ⟨0, 1000⟩, ["d0"]⟩], 1000⟩ (some "s") "g" "d2"
        ⟨true, false, true, true, true⟩).2).find? "s" = none :=
  ((upload_failure_deletes_session_spec ⟨[⟨"s", .ok ⟨0, 1000⟩, ["d0"]⟩], 1000⟩ "s" "g" "d2"
      "Failed to create text chunks" ⟨true, false, true, true, true⟩ rfl).2
    ⟨"s", .ok ⟨0, 1000⟩, ["d0"]⟩ ⟨0, 1000⟩ (by decide) (by decide) rfl (by decide)).2

/-- C3: the persist step reports success exactly when both writes succeed,
and whenever it reports success both co-located artifacts — the index and
the parallel chunk list — are on disk; no outcome reports success with
only one of the two written. -/
theorem persist_pair_atomic_spec (storeOk saveOk : Bool) (emb : List (List Int))
    (chunks : List String) (ip cp : String) (fs : FS) (hne : ip ≠ cp) :
    ((persist_artifacts storeOk saveOk emb chunks ip cp fs).1 = (storeOk && saveOk)) ∧
    (∀ fs', persist_artifacts storeOk saveOk emb chunks ip cp fs = (true, fs') →
      fsRead fs' ip = some (.idxData emb) ∧ fsRead fs' cp = some (.jsonData chunks)) := by
  cases storeOk with
  | false => exact ⟨by simp [persist_artifacts, store_embeddings], by
      intro fs' h
      simp [persist_artifacts, store_embeddings] at h⟩
  | true =>
    cases saveOk with
    | false => exact ⟨by simp [persist_artifacts, store_embeddings, save_chunks], by
        intro fs' h
        simp [persist_artifacts, store_embeddings, save_chunks] at h⟩
    | true =>
      refine ⟨by simp [persist_artifacts, store_embeddings, save_chunks], ?_⟩
      intro fs' h
      simp only [persist_artifacts, store_embeddings, save_chunks, if_true,
        Bool.not_true, Bool.false_eq_true, if_false, Prod.mk.injEq, true_and] at h
      subst h
      exact ⟨by rw [fsRead_fsWrite_other _ _ _ _ hne, fsRead_fsWrite_same],
        fsRead_fsWrite_same _ _ _⟩

/-- Witness for `persist_pair_atomic_spec` on a concrete filesystem. -/
theorem persist_pair_atomic_spec_witness :
    fsRead (persist_artifacts true true [[1]] ["c"] "i.index" "c.json" []).2 "i.index"
        = some (.idxData [[1]]) ∧
    fsRead (persist_artifacts true true [[1]] ["c"] "i.index" "c.json" []).2 "c.json"
        = some (.jsonData ["c"]) :=
  (persist_pair_atomic_spec true true [[1]] ["c"] "i.index" "c.json" []
      (by decide)).2 (persist_artifacts true true [[1]] ["c"] "i.index" "c.json" []).2 rfl

/-- C8: persisting a non-empty chunk list with its one-per-chunk embedding
rows and then loading from the same two paths round-trips: the load
succeeds as a unit, the loaded chunk list equals the original exactly,
and its length equals the loaded index's row count. -/
theorem persist_load_roundtrip_spec (emb : List (List Int)) (chunks : List String)
    (ip cp : String) (fs : FS) (hne : ip ≠ cp) (hlen : emb.length = chunks.length)
    (_hch : chunks ≠ []) :
    ∃ rows cs,
      load_index_and_chunks (persist_artifacts true true emb chunks ip cp fs).2 ip cp
        = some (rows, cs) ∧
      cs.length = rows.length ∧ cs = chunks := by
  refine ⟨emb, chunks, ?_, hlen.symm, rfl⟩
  simp only [persist_artifacts, store_embeddings, save_chunks, if_true, Bool.not_true,
    Bool.false_eq_true, if_false, load_index_and_chunks]
  rw [fsRead_fsWrite_other _ _ _ _ hne, fsRead_fsWrite_same, fsRead_fsWrite_same]

/-- Witness for `persist_load_roundtrip_spec` on a concrete filesystem. -/
theorem persist_load_roundtrip_spec_witness :
    ∃ rows cs,
      load_index_and_chunks
          (persist_artifacts true true [[1], [2]] ["x", "y"] "a.index" "b.json" []).2
          "a.index" "b.json"
        = some (rows, cs) ∧
      cs.length = rows.length ∧ cs = ["x", "y"] :=
  persist_load_roundtrip_spec [[1], [2]] ["x", "y"] "a.index" "b.json" []
    (by decide) rfl (by decide)

/-! ## Claim theorems: chunker -/

lemma chunkLoop_isSome (tokens : List (List Char)) (cs ov : Nat) (hov : ov < cs) :
    ∀ fuel start acc, tokens.length - start < fuel →
      (chunkLoop tokens cs ov fuel start acc).isSome := by
  intro fuel
  induction fuel with
  | zero => intro start acc h; omega
  | succ f ih =>
    intro start acc h
    by_cases hs : start < tokens.length
    · rw [chunkLoop]
      rw [if_pos hs]
      apply ih
      have hadv : start < nextStart cs ov start (chunkEnd tokens cs ov start) := by
        unfold nextStart
        exact lt_of_lt_of_le (by omega) (le_max_left _ _)
      omega
    · rw [chunkLoop, if_neg hs]
      rfl

/-- C7: with `overlap < chunk_size` the window start strictly increases on
every iteration (it moves to the larger of `start + chunk_size - overlap`
and the adjusted end minus the overlap), so the chunking loop terminates:
`tokens.length + 1` iterations of fuel always suffice, and `chunk_text`
returns that fixpoint. -/
theorem chunker_progress_terminates_spec (tokens : List (List Char)) (cs ov : Nat)
    (hov : ov < cs) :
    (∀ start e, start < nextStart cs ov start e) ∧
    ∃ r, chunkLoop tokens cs ov (tokens.length + 1) 0 [] = some r ∧
      chunk_text tokens cs ov = if tokens = [] then [] else r := by
  constructor
  · intro start e
    unfold nextStart
    exact lt_of_lt_of_le (by omega) (le_max_left _ _)
  · have h := chunkLoop_isSome tokens cs ov hov (tokens.length + 1) 0 [] (by omega)
    obtain ⟨r, hr⟩ := Option.isSome_iff_exists.mp h
    exact ⟨r, hr, by simp [chunk_text, hr]⟩

/-- Witness for `chunker_progress_terminates_spec`: concrete strict
progress of the window start. -/
theorem chunker_progress_terminates_spec_witness :
    (0 : Nat) < nextStart 3 2 0 0 :=
  (chunker_progress_terminates_spec [['a']] 3 2 (by decide)).1 0 0

/-- Token stream on which the chunker's break-point adjustment overshoots:
four tokens decoding to "a", "b. ", "cd", "e". -/
def buggyTokens : List (List Char) := [['a'], ['b', '.', ' '], ['c', 'd'], ['e']]

/-- C6: evaluation of the chunker at `buggyTokens` with
`chunk_size = 3, overlap = 2`.  The break-point scan finds ". " at
character offset 1 of the decoded overlap window and the code adds that
character offset to the token position `overlap_start`, producing a first
chunk of 4 tokens — more than `chunk_size` — contradicting the function's
own contract that `chunk_size` is the maximum number of tokens per chunk.
Empty input does yield the empty sequence. -/
theorem chunker_token_bound_eval :
    (chunk_text buggyTokens 3 2).map List.length = [4, 2, 1] ∧ (3 : Nat) < 4 ∧
    chunk_text ([] : List (List Char)) 3 2 = [] := by decide

/-! ## Claim theorems: embedding adapter -/

lemma filterMap_eq_filter_map (f : String → Option (List Int)) (l : List String) :
    l.filterMap f = (l.filter (fun c => (f c).isSome)).map (fun c => (f c).getD []) := by
  induction l with
  | nil => rfl
  | cons c rest ih =>
    cases hf : f c with
    | none => simp [List.filterMap_cons, hf, ih]
    | some v => simp [List.filterMap_cons, hf, ih]

/-- C9: `embed_chunks` returns `None` on empty input; on batch success it
returns the batch vectors (one per input, by the encoder's contract); on
batch failure it falls back to per-item embedding, returning `None`
exactly when every item individually fails, and otherwise the embeddings
of the surviving items in input order — so when no item fails the output
count equals the input count. -/
theorem embed_fallback_spec (f : String → Option (List Int)) (chunks : List String)
    (vs : List (List Int)) :
    (embed_chunks none f [] = none ∧ embed_chunks (some vs) f [] = none) ∧
    (chunks ≠ [] → embed_chunks (some vs) f chunks = some vs) ∧
    (chunks ≠ [] →
      ((embed_chunks none f chunks = none ↔ ∀ c ∈ chunks, f c = none) ∧
       (∀ out, embed_chunks none f chunks = some out →
          out = (chunks.filter (fun c => (f c).isSome)).map (fun c => (f c).getD []) ∧
          ((∀ c ∈ chunks, (f c).isSome) → out.length = chunks.length)))) := by
  refine ⟨⟨rfl, rfl⟩, ?_, ?_⟩
  · intro hne
    simp [embed_chunks, hne]
  · intro hne
    constructor
    · simp [embed_chunks, hne, List.filterMap_eq_nil_iff]
    · intro out hout
      simp only [embed_chunks, List.isEmpty_iff, hne, if_neg, if_false] at hout
      by_cases hr : chunks.filterMap f = []
      · simp [hr, List.isEmpty_iff] at hout
      · rw [if_neg (by simpa [List.isEmpty_iff] using hr)] at hout
        obtain rfl : chunks.filterMap f = out := by injection hout
        refine ⟨filterMap_eq_filter_map f chunks, ?_⟩
        intro hall
        rw [filterMap_eq_filter_map f chunks, List.length_map,
          List.filter_length_eq_length.mpr ?_]
        intro c hc
        simpa using hall c hc

/-- Witness for `embed_fallback_spec` at a concrete per-item embedder that
fails on "bad" only. -/
theorem embed_fallback_spec_witness :
    (["x", "bad"] : List String) ≠ [] ∧
    (embed_chunks none (fun c => if c = "bad" then none else some [1]) ["x", "bad"] = none ↔
      ∀ c ∈ (["x", "bad"] : List String),
        (fun c => if c = "bad" then none else some ([1] : List Int)) c = none) :=
  ⟨by decide,
    ((embed_fallback_spec (fun c => if c = "bad" then none else some [1]) ["x", "bad"]
        []).2.2 (by decide)).1⟩
/-! ## Claim theorems: flat search -/

/-- The key by which flat L2 search ranks row `i`. -/
def rowKey (index : List (List Int)) (q : List Int) (i : Nat) : Int × Nat :=
  (distSq (index.getD i []) q, i)

/-- Row `i` is at least as near to the query as row `j`: strictly smaller
squared distance, or equal distance and a lower (or equal) row number. -/
def nearLE (index : List (List Int)) (q : List Int) (i j : Nat) : Prop :=
  lexLe (rowKey index q i) (rowKey index q j)

lemma keyedRows_length (index : List (List Int)) (q : List Int) :
    (keyedRows index q).length = index.length := by
  simp [keyedRows]

lemma keyedRows_eq (index : List (List Int)) (q : List Int) :
    keyedRows index q = (List.range index.length).map (rowKey index q) := by
  apply List.ext_getElem
  · simp [keyedRows]
  · intro i h1 h2
    have hi : i < index.length := by simpa [keyedRows] using h1
    simp only [keyedRows, List.getElem_map, List.getElem_enum, List.getElem_range, rowKey]
    rw [List.getD_eq_getElem index [] hi]

lemma mem_keyedRows_eq (index : List (List Int)) (q : List Int) (p : Int × Nat)
    (hp : p ∈ keyedRows index q) : p = rowKey index q p.2 ∧ p.2 < index.length := by
  rw [keyedRows_eq] at hp
  obtain ⟨i, hi, rfl⟩ := List.mem_map.mp hp
  exact ⟨rfl, List.mem_range.mp hi⟩

lemma map_snd_keyedRows (index : List (List Int)) (q : List Int) :
    (keyedRows index q).map (fun p => p.2) = List.range index.length := by
  rw [keyedRows_eq, List.map_map]
  have hcomp : ((fun p : Int × Nat => p.2) ∘ rowKey index q) = id := by
    funext i
    rfl
  rw [hcomp, List.map_id]

/-- C2 amended: `search` always returns exactly `k` entries; the first
`min k n` of them (for an index of `n` rows) are pairwise-distinct valid
row numbers ordered nearest-first by squared Euclidean distance with ties
broken by lower row number; they are a `k`-nearest selection (every
omitted row ranks no nearer than any returned one); the remaining
`k - min k n` entries are the FAISS padding sentinel `-1`.  When `n ≤ k`
the genuine part is a permutation of all `n` row numbers. -/
theorem search_padded_spec (index : List (List Int)) (q : List Int) (k : Nat) :
    (search index q k).length = k ∧
    (searchIdx index q k).length = min k index.length ∧
    (search index q k).take (min k index.length)
      = (searchIdx index q k).map (fun i => Int.ofNat i) ∧
    (search index q k).drop (min k index.length)
      = List.replicate (k - min k index.length) (-1) ∧
    (∀ i ∈ searchIdx index q k, i < index.length) ∧
    (searchIdx index q k).Nodup ∧
    List.Pairwise (nearLE index q) (searchIdx index q k) ∧
    (∀ i, i < index.length → i ∉ searchIdx index q k →
      ∀ j ∈ searchIdx index q k, nearLE index q j i) ∧
    (index.length ≤ k → List.Perm (searchIdx index q k) (List.range index.length)) := by
  have hperm : List.Perm ((keyedRows index q).insertionSort lexLe) (keyedRows index q) :=
    List.perm_insertionSort lexLe _
  have hsorted : List.Pairwise lexLe ((keyedRows index q).insertionSort lexLe) :=
    List.sorted_insertionSort lexLe _
  have hslen : ((keyedRows index q).insertionSort lexLe).length = index.length :=
    hperm.length_eq.trans (keyedRows_length index q)
  have hsnd : List.Perm (((keyedRows index q).insertionSort lexLe).map (fun p => p.2))
      (List.range index.length) := by
    have h := hperm.map (fun p : Int × Nat => p.2)
    rwa [map_snd_keyedRows] at h
  have hIdx : searchIdx index q k
      = ((((keyedRows index q).insertionSort lexLe).map (fun p => p.2)).take k) := by
    simp [searchIdx, List.map_take]
  have hIdxLen : (searchIdx index q k).length = min k index.length := by
    rw [hIdx, List.length_take, List.length_map, hslen]
  have hmemTake : ∀ p ∈ (((keyedRows index q).insertionSort lexLe).take k),
      p = rowKey index q p.2 := by
    intro p hp
    have hpK : p ∈ keyedRows index q :=
      hperm.subset ((List.take_sublist _ _).subset hp)
    exact (mem_keyedRows_eq index q p hpK).1
  have hpairTake : List.Pairwise lexLe
      (((keyedRows index q).insertionSort lexLe).take k) :=
    List.Pairwise.sublist (List.take_sublist _ _) hsorted
  refine ⟨?_, hIdxLen, ?_, ?_, ?_, ?_, ?_, ?_, ?_⟩
  · unfold search
    rw [List.length_append, List.length_map, hIdxLen, List.length_replicate]
    have := Nat.min_le_left k index.length
    omega
  · unfold search
    exact List.take_left' (by rw [List.length_map, hIdxLen])
  · unfold search
    exact List.drop_left' (by rw [List.length_map, hIdxLen])
  · intro i hi
    rw [hIdx] at hi
    have hmem : i ∈ (((keyedRows index q).insertionSort lexLe).map (fun p => p.2)) :=
      (List.take_sublist _ _).subset hi
    exact List.mem_range.mp (hsnd.mem_iff.mp hmem)
  · rw [hIdx]
    exact (List.take_sublist _ _).nodup (hsnd.nodup_iff.mpr (List.nodup_range _))
  · simp only [searchIdx]
    rw [List.pairwise_map]
    refine List.Pairwise.imp_of_mem ?_ hpairTake
    intro a b ha hb hab
    have ea := hmemTake a ha
    have eb := hmemTake b hb
    unfold nearLE
    rw [← ea, ← eb]
    exact hab
  · intro i hi hnot j hj
    have hiK : rowKey index q i ∈ keyedRows index q := by
      rw [keyedRows_eq]
      exact List.mem_map_of_mem _ (List.mem_range.mpr hi)
    have hiS : rowKey index q i ∈ (keyedRows index q).insertionSort lexLe :=
      hperm.mem_iff.mpr hiK
    rw [← List.take_append_drop k ((keyedRows index q).insertionSort lexLe)] at hiS
    rcases List.mem_append.mp hiS with hin | hdropm
    · exfalso
      apply hnot
      have hmem : (rowKey index q i).2 ∈ searchIdx index q k := by
        simp only [searchIdx]
        exact List.mem_map_of_mem _ hin
      simpa [rowKey] using hmem
    · simp only [searchIdx] at hj
      obtain ⟨p, hpTake, hpj⟩ := List.mem_map.mp hj
      have hpK : p = rowKey index q p.2 := hmemTake p hpTake
      have hpa : List.Pairwise lexLe
          ((((keyedRows index q).insertionSort lexLe).take k)
            ++ (((keyedRows index q).insertionSort lexLe).drop k)) := by
        rw [List.take_append_drop]
        exact hsorted
      have hle := (List.pairwise_append.mp hpa).2.2 p hpTake (rowKey index q i) hdropm
      unfold nearLE
      rw [← hpj, ← hpK]
      exact hle
  · intro hk
    rw [hIdx, List.take_of_length_le (by rw [List.length_map, hslen]; exact hk)]
    exact hsnd

/-- Witness for `search_padded_spec`: with 2 rows and `k = 3` the genuine
labels are a permutation of both row numbers. -/
theorem search_padded_spec_witness :
    ([[0], [5]] : List (List Int)).length ≤ 3 ∧
    List.Perm (searchIdx [[0], [5]] [1] 3) (List.range 2) :=
  ⟨by decide, (search_padded_spec [[0], [5]] [1] 3).2.2.2.2.2.2.2.2 (by decide)⟩

/-- C2 counterexample: an index holding one vector, queried with `k = 3`
(the wrapper's default), returns `[0, -1, -1]` — three entries, two of
them the `-1` padding sentinel — not "exactly the row indices of the
index", refuting the claim's `n < k` clause. -/
theorem search_small_index_counterexample :
    search [[0]] [0] 3 = [0, -1, -1] ∧
    search [[0]] [0] 3 ≠ [0] ∧ (-1 : Int) ∈ search [[0]] [0] 3 := by
  refine ⟨by decide, by decide, by decide⟩
